import Mathlib

set_option maxRecDepth 2000

/-!
Verification of the 3ds-Max-Asset-Manager core against its specification.

This file embeds the data model and the operations of the repository's
`src/core` modules (`file_manager.py`, `backup_manager.py`,
`operation_history.py`, `asset_analyzer.py`, `max_parser.py`) as executable
Lean definitions and proves, or refutes, the frozen claims about them.

Modelling conventions:
* A filesystem path is represented by its directory components plus the file
  name split into stem and extension (mirroring pathlib's
  `parent` / `stem` / `suffix`); paths are taken to be already resolved, so
  `Path.resolve()` is the identity in the model.
* The filesystem is an association list from paths to byte contents; a byte
  is a `Nat`.  Filesystem primitives (`shutil.move`, `shutil.copy2`,
  `Path.unlink`) succeed whenever their source exists; OS-level failures
  (permission errors) are outside the model, matching the code path in which
  no exception is raised.
* MD5 digests are not computed: `_get_file_hash(quick=True)` returns the
  string `f"{size}_{md5(head + tail)}"`, which is a pure function of the
  pair `(size, head ++ tail)`; the model returns that pair directly.  Every
  theorem below uses only the congruence direction (equal inputs give equal
  digests), which holds for the real MD5 as well.
* Python's `str.lower()` is modeled by a structural character-wise fold so
  that it evaluates inside the kernel.
-/

namespace AssetMgr

/-- A filesystem path: directory components, file stem, and extension
(the extension includes its leading dot, as `pathlib.Path.suffix` does). -/
structure P where
  dir : List String
  stem : String
  ext : String
  deriving DecidableEq, Repr

/-- File contents: a list of bytes. -/
abbrev Content := List Nat

/-- The filesystem: an association list from paths to contents. -/
abbrev FS := List (P × Content)

/-- Look up a file's contents. -/
def fsGet (fs : FS) (p : P) : Option Content :=
  (fs.find? (fun e => decide (e.1 = p))).map (fun e => e.2)

/-- Does the file exist (`Path.exists()`)? -/
def fsExists (fs : FS) (p : P) : Bool :=
  (fsGet fs p).isSome

/-- Remove a file (`Path.unlink()` / the removal half of `shutil.move`). -/
def fsRemove (fs : FS) (p : P) : FS :=
  fs.filter (fun e => decide (e.1 ≠ p))

/-- Write a file, overwriting any previous entry
(`shutil.copy2` / the insertion half of `shutil.move`). -/
def fsInsert (fs : FS) (p : P) (c : Content) : FS :=
  fsRemove fs p ++ [(p, c)]

/-- Models Python's `str.lower()`: character-wise case folding.  (Defined
structurally over the character list so that it evaluates by `rfl`/`decide`;
the Basic Latin range is what the repository's name matching exercises.) -/
def strLower (s : String) : String := ⟨s.data.map Char.toLower⟩

/-- The full file name, `pathlib.Path.name` (stem plus suffix). -/
def fname (p : P) : String := p.stem ++ p.ext

/-- The lowercased file name, `file_path.name.lower()`. -/
def lowerName (p : P) : String := strLower (fname p)

/-- Lowercased extension, `file_path.suffix.lower()`. -/
def lowerExt (p : P) : String := strLower p.ext

/-- Name of the directory containing the file, `source.parent.name`. -/
def parentFolderName (p : P) : String := p.dir.getLast?.getD ""

/-! ### operation_history.py -/

/-- Embeds `OperationType` (operation_history.py, lines 13-18). -/
inductive OpType where
  | move
  | copy
  | delete
  | restore
  deriving DecidableEq, Repr

/-- Embeds the `Operation` dataclass (operation_history.py, lines 21-32);
the `id` and `timestamp` bookkeeping fields are omitted, no claim reads them. -/
structure Operation where
  type : OpType
  source : P
  destination : Option P
  success : Bool
  error : Option String
  backupId : Option String
  baseFolder : Option (List String)
  deriving DecidableEq, Repr

/-- Embeds `OperationHistory.can_undo` (operation_history.py, lines 115-121):
`if not self.operations: return False` then
`last_op.success and last_op.type != OperationType.RESTORE`. -/
def canUndo (ops : List Operation) : Bool :=
  match ops.getLast? with
  | none => false
  | some lastOp => lastOp.success && decide (lastOp.type ≠ OpType.restore)

/-! ### Decimal numerals

`FileManager._get_unique_name` builds candidate names
`f"{stem}_{counter}{suffix}"`; the theorems about its loop need that
distinct counters give distinct candidate names, i.e. that `Nat.repr` is
injective.  The next two definitions read a digit string back into a
number. -/

/-- Value of a decimal digit character, inverse of `Nat.digitChar` below 10. -/
def decDigitVal (c : Char) : Nat :=
  if c = '0' then 0 else if c = '1' then 1 else if c = '2' then 2 else
  if c = '3' then 3 else if c = '4' then 4 else if c = '5' then 5 else
  if c = '6' then 6 else if c = '7' then 7 else if c = '8' then 8 else
  if c = '9' then 9 else 10

/-- Value of a decimal digit string, most significant digit first. -/
def decValue (l : List Char) : Nat :=
  l.foldl (fun a c => 10 * a + decDigitVal c) 0

/-! ### FileManager._get_unique_name (file_manager.py, lines 601-613) -/

/-- The candidate destination name `parent / f"{stem}_{counter}{suffix}"`
tried by `_get_unique_name` at counter value `n`. -/
def candidateName (path : P) (n : Nat) : P :=
  ⟨path.dir, path.stem ++ "_" ++ Nat.repr n, path.ext⟩

/-- The `while new_path.exists()` loop of `_get_unique_name`, with explicit
fuel.  `fs.length + 1` units of fuel always suffice (`exists_free_candidate`
below), so the fuel-exhausted arm is unreachable. -/
def uniqueNameLoop (fs : FS) (path : P) : Nat → Nat → P
  | 0, _ => path
  | fuel + 1, counter =>
    if fsExists fs (candidateName path counter) then
      uniqueNameLoop fs path fuel (counter + 1)
    else candidateName path counter

/-- Embeds `FileManager._get_unique_name` (file_manager.py, lines 601-613):
return `path` when it does not exist, otherwise try
`parent / f"{stem}_{counter}{suffix}"` with the counter running 1, 2, …
until a free name is found. -/
def getUniqueName (fs : FS) (path : P) : P :=
  if fsExists fs path then uniqueNameLoop fs path (fs.length + 1) 1 else path

/-! ### FileManager.organize_assets (file_manager.py, lines 95-366)

The organizer is embedded as a state-passing function that records every
filesystem mutation it performs on a project file in an event trace:
`backupEv p` for a `BackupManager.create_backup(p, backup_id)` call that
stores an entry (the call is a no-op returning `None` when `p` does not
exist), and `moveEv` / `copyEv` / `deleteEv` for the `shutil.move`,
`shutil.copy2` and `Path.unlink` mutations.  Directory bookkeeping
(`mkdir`, removal of the empty `unused` folder, `_remove_empty_folders`)
touches no project file and is not part of the trace. -/

/-- One logged filesystem event of an organize run. -/
inductive Ev where
  | backupEv (p : P)
  | moveEv (src dst : P)
  | copyEv (src dst : P)
  | deleteEv (p : P)
  deriving DecidableEq, Repr

/-- Organizer state: the filesystem plus the event trace so far. -/
structure OrgState where
  fs : FS
  trace : List Ev
  deriving Repr

/-- Embeds the `AnalysisResult` fields read by `organize_assets`:
`folder_path`, `scenes`, `linked_files`, `unused_files`. -/
structure Analysis where
  basePath : List String
  scenes : List P
  linkedFiles : List P
  unusedFiles : List P
  deriving Repr

/-- The four keyword flags of `organize_assets`. -/
structure OrganizeFlags where
  createMapsFolder : Bool
  moveUnused : Bool
  copyInsteadOfMove : Bool
  deleteDuplicates : Bool
  deriving Repr

/-- Embeds `FileManager._is_in_folder` (file_manager.py, lines 368-376):
after resolving, `folder == file_path.parent or folder in file_path.parents`,
i.e. the folder's components are a prefix of the file's directory. -/
def isInFolder (p : P) (folder : List String) : Bool :=
  folder.isPrefixOf p.dir

/-- Embeds `FileManager._is_file_in_scene_folder` (file_manager.py,
lines 378-422): with no scene information the answer is `True`; otherwise the
file is inside a scene folder when some existing scene's parent directory is
a prefix of the file's path (`Path.relative_to` succeeding). -/
def isFileInSceneFolder (fs : FS) (scenes : List P) (p : P) : Bool :=
  if scenes.isEmpty then true
  else scenes.any (fun s => fsExists fs s && s.dir.isPrefixOf p.dir)

/-- Embeds the quick branch of `FileManager._get_file_hash` (file_manager.py,
lines 74-93): read the first 1024 bytes, seek to `max(0, size - 1024)`, read
the last 1024 bytes, and return `f"{size}_{md5(head + tail).hexdigest()}"` —
a pure function of the pair `(size, head ++ tail)`, which the model returns
directly (see the header note on MD5). -/
def getFileHashQuick (c : Content) : Nat × Content :=
  (c.length, c.take 1024 ++ c.drop (c.length - 1024))

/-- Quick hash of a file on disk; `none` models the unreadable-file branch. -/
def fileHash (fs : FS) (p : P) : Option (Nat × Content) :=
  (fsGet fs p).map getFileHashQuick

/-- Embeds the `create_backup` call sites in `organize_assets`
(`if self.enable_backup and backup_id: self.backup_manager.create_backup(...)`)
combined with `BackupManager.create_backup`'s own existence guard
(backup_manager.py, lines 69-70): an entry is recorded exactly when backup is
enabled and the file exists. -/
def backupFileOp (enableBackup : Bool) (st : OrgState) (p : P) : OrgState :=
  if enableBackup && fsExists st.fs p then
    ⟨st.fs, st.trace ++ [Ev.backupEv p]⟩
  else st

/-- Embeds `FileManager._move_file` (file_manager.py, lines 424-503):
compute the destination name (with the `f"{stem}_{parent_name}{suffix}"`
rename when requested), divert to `_get_unique_name` on collision, then
`shutil.copy2` or `shutil.move`.  A missing source makes `shutil` raise,
which the source catches and records as a failed operation with no
filesystem change. -/
def moveFileOp (st : OrgState) (src : P) (destDir : List String)
    (copyMode : Bool) (rename : Bool) : OrgState :=
  let destName : P :=
    if rename then ⟨destDir, src.stem ++ "_" ++ parentFolderName src, src.ext⟩
    else ⟨destDir, src.stem, src.ext⟩
  let dest := if fsExists st.fs destName then getUniqueName st.fs destName else destName
  match fsGet st.fs src with
  | none => st
  | some c =>
    if copyMode then
      ⟨fsInsert st.fs dest c, st.trace ++ [Ev.copyEv src dest]⟩
    else
      ⟨fsInsert (fsRemove st.fs src) dest c, st.trace ++ [Ev.moveEv src dest]⟩

/-- Embeds `FileManager._delete_file` (file_manager.py, lines 505-543):
`Path.unlink`, which raises on a missing file (recorded as a failed
operation with no filesystem change). -/
def deleteFileOp (st : OrgState) (p : P) : OrgState :=
  if fsExists st.fs p then
    ⟨fsRemove st.fs p, st.trace ++ [Ev.deleteEv p]⟩
  else st

/-- Insertion-ordered grouping, mirroring the Python dict
`files_by_name[name].append(file_path)`. -/
def groupInsert (groups : List (String × List P)) (key : String) (p : P) :
    List (String × List P) :=
  match groups with
  | [] => [(key, [p])]
  | (k, ps) :: rest =>
    if k = key then (k, ps ++ [p]) :: rest
    else (k, ps) :: groupInsert rest key p

/-- Embeds the grouping loop of `organize_assets` (file_manager.py,
lines 154-167): skip missing files and `.max` scenes, then group the linked
files by lowercased name. -/
def groupByName (fs : FS) (files : List P) : List (String × List P) :=
  files.foldl (fun groups p =>
    if fsExists fs p = false then groups
    else if lowerExt p = ".max" then groups
    else groupInsert groups (lowerName p) p) []

/-- Embeds the body shared by both duplicate loops of `organize_assets`
(file_manager.py, lines 222-240 and 270-287): compare quick hashes against
the reference; on a match with `delete_duplicates` enabled, back up and
delete the candidate, otherwise back up and move/copy it into `maps` under
the renamed `f"{stem}_{parent}{suffix}"` name. -/
def processOther (enableBackup deleteDuplicates : Bool) (scenes : List P)
    (mapsDir : List String) (masterHash : Option (Nat × Content))
    (st : OrgState) (other : P) : OrgState :=
  if decide (fileHash st.fs other = masterHash) && deleteDuplicates then
    deleteFileOp (backupFileOp enableBackup st other) other
  else
    moveFileOp (backupFileOp enableBackup st other) other mapsDir
      (!isFileInSceneFolder (backupFileOp enableBackup st other).fs scenes other)
      true

/-- Embeds the duplicate-name branch (`len(file_paths) > 1`) of step 1 of
`organize_assets` (file_manager.py, lines 206-287).  The loop variable
`in_maps` holds the last instance residing in `maps` (each hit overwrites
it); those outside `maps` are collected in `others` in order. -/
def processDupGroup (enableBackup deleteDuplicates : Bool) (scenes : List P)
    (mapsDir : List String) (st : OrgState) (ps : List P) : OrgState :=
  match (ps.filter (fun fp => isInFolder fp mapsDir)).getLast? with
  | some master =>
    (ps.filter (fun fp => !isInFolder fp mapsDir)).foldl
      (processOther enableBackup deleteDuplicates scenes mapsDir
        (fileHash st.fs master)) st
  | none =>
    match ps.filter (fun fp => !isInFolder fp mapsDir) with
    | [] => st
    | master :: rest =>
      rest.foldl
        (processOther enableBackup deleteDuplicates scenes mapsDir
          (fileHash st.fs master))
        (moveFileOp (backupFileOp enableBackup st master) master mapsDir
          (!isFileInSceneFolder (backupFileOp enableBackup st master).fs
            scenes master) false)

/-- Embeds the per-group body of step 1 of `organize_assets` (file_manager.py,
lines 170-287).  A single instance already inside `maps` is skipped;
otherwise it is backed up and moved or copied into `maps` (integrity
checking only reads the file and appends warnings, so it produces no event).
Several instances go through the duplicate branch. -/
def processGroup (enableBackup : Bool) (scenes : List P) (mapsDir : List String)
    (deleteDuplicates : Bool) (st : OrgState) (g : String × List P) : OrgState :=
  match g.2 with
  | [] => st
  | [p] =>
    if isInFolder p mapsDir then st
    else
      moveFileOp (backupFileOp enableBackup st p) p mapsDir
        (!isFileInSceneFolder (backupFileOp enableBackup st p).fs scenes p) false
  | p :: q :: rest =>
    processDupGroup enableBackup deleteDuplicates scenes mapsDir st (p :: q :: rest)

/-- Embeds the per-file body of step 2 of `organize_assets` (file_manager.py,
lines 298-317): skip missing files, `.max` scenes and files already inside
`unused`; otherwise back up and move or copy into `unused`. -/
def processUnused (enableBackup : Bool) (scenes : List P)
    (unusedDir : List String) (st : OrgState) (p : P) : OrgState :=
  if fsExists st.fs p = false then st
  else if lowerExt p = ".max" then st
  else if isInFolder p unusedDir then st
  else
    moveFileOp (backupFileOp enableBackup st p) p unusedDir
      (!isFileInSceneFolder (backupFileOp enableBackup st p).fs scenes p) false

/-- The guard computed before creating the `unused` folder (file_manager.py,
lines 131-135): the number of unused files that exist and are not scenes. -/
def unusedCount (fs : FS) (a : Analysis) : Nat :=
  (a.unusedFiles.filter (fun f => fsExists fs f && !(lowerExt f = ".max"))).length

/-- Embeds `FileManager.organize_assets` (file_manager.py, lines 95-366):
step 1 consolidates the linked files into `maps` group by group, step 2
relocates the unused files into `unused` (only when the folder was created,
i.e. when at least one movable unused file existed up front).  Step 3 and
the empty-`unused` cleanup remove only directories, never project files,
and are therefore outside the model's file-event trace. -/
def organizeAssets (enableBackup : Bool) (a : Analysis) (flags : OrganizeFlags)
    (fs0 : FS) : OrgState :=
  let mapsDir := a.basePath ++ ["maps"]
  let unusedDir := a.basePath ++ ["unused"]
  let st0 : OrgState := ⟨fs0, []⟩
  let st1 :=
    if flags.createMapsFolder then
      (groupByName fs0 a.linkedFiles).foldl
        (processGroup enableBackup a.scenes mapsDir flags.deleteDuplicates) st0
    else st0
  if flags.moveUnused && decide (0 < unusedCount fs0 a) then
    a.unusedFiles.foldl (processUnused enableBackup a.scenes unusedDir) st1
  else st1

/-! ### Trace predicates for claim C1 -/

/-- The file a destructive event mutates (`none` for backup snapshots). -/
def destructiveSrc : Ev → Option P
  | Ev.backupEv _ => none
  | Ev.moveEv s _ => some s
  | Ev.copyEv s _ => some s
  | Ev.deleteEv p => some p

/-- Paths considered backed up after an event. -/
def seenAfter (seen : List P) (e : Ev) : List P :=
  match e with
  | Ev.backupEv p => p :: seen
  | _ => seen

/-- Every destructive event in the run mutates a path already backed up,
given the paths in `seen` are backed up before the run starts. -/
def coveredRun (seen : List P) : List Ev → Prop
  | [] => True
  | e :: rest =>
    (∀ p, destructiveSrc e = some p → p ∈ seen) ∧ coveredRun (seenAfter seen e) rest

/-- Every destructive mutation in the trace is preceded by a backup event
for the same file. -/
def backupBefore (tr : List Ev) : Prop :=
  ∀ pre e post p, tr = pre ++ e :: post → destructiveSrc e = some p →
    Ev.backupEv p ∈ pre

/-! ### Scenario for claim C3 -/

/-- Scenario for the duplicate-deletion half of claim C3: two linked files
named `wood.jpg`, one already canonical inside `maps`, one not. -/
def c3NonCanon : P := ⟨["C:", "proj", "textures"], "wood", ".jpg"⟩

def c3Canon : P := ⟨["C:", "proj", "maps"], "wood", ".jpg"⟩

def c3Analysis : Analysis := ⟨["C:", "proj"], [], [c3NonCanon, c3Canon], []⟩

def c3Flags : OrganizeFlags := ⟨true, true, false, true⟩

def c3FS (c1 c2 : Content) : FS := [(c3NonCanon, c1), (c3Canon, c2)]

/-- The shared first kibibyte of the two claim-C3 witness files. -/
def c3Head : Content := List.replicate 1024 0

/-- The shared last kibibyte of the two claim-C3 witness files. -/
def c3Tail : Content := List.replicate 1024 0

/-- A 2049-byte file whose middle byte is 0. -/
def c3Bytes1 : Content := c3Head ++ 0 :: c3Tail

/-- A 2049-byte file equal to `c3Bytes1` except that byte 1024 is 1. -/
def c3Bytes2 : Content := c3Head ++ 1 :: c3Tail

/-! ### backup_manager.py and FileManager.undo_last_operation -/

/-- Embeds the `BackupManager` metadata relevant to restore: for each backup
id, the list of (original path, saved bytes) entries; having an entry means
the staged copy exists in the run-scoped staging area, which the organizer
never touches. -/
structure BackupStore where
  entries : List (String × List (P × Content))
  deriving DecidableEq, Repr

/-- Embeds `BackupManager.restore_backup` (backup_manager.py, lines 112-145):
copy every entry's saved bytes back over its original path (creating parent
directories as needed) and report success iff at least one file was
restored. -/
def restoreBackup (store : BackupStore) (bid : String) (fs : FS) : Bool × FS :=
  match store.entries.find? (fun e => decide (e.1 = bid)) with
  | none => (false, fs)
  | some entry =>
    (decide (0 < entry.2.length),
      entry.2.foldl (fun acc pc => fsInsert acc pc.1 pc.2) fs)

/-- The `FileManager` state read by `undo_last_operation`: the filesystem,
the operation history, and the backup manager when one was created. -/
structure FMState where
  fs : FS
  history : List Operation
  backupStore : Option BackupStore
  deriving Repr

/-- The RESTORE log entry recording an undo of `lastOp`
(file_manager.py, lines 586-594): `success=True`, same source, destination,
backup id and base folder. -/
def restoreEntry (lastOp : Operation) : Operation :=
  ⟨OpType.restore, lastOp.source, lastOp.destination, true, none,
    lastOp.backupId, lastOp.baseFolder⟩

/-- Embeds `FileManager.undo_last_operation` (file_manager.py, lines
562-599).  For a MOVE the destination (when it still exists) is moved back
to the source; for a COPY the destination (when it still exists) is
unlinked; for a DELETE carrying a backup id, when a backup manager is
present, the function returns the result of `restore_backup` directly —
skipping the code below that appends the RESTORE entry; every other flow
appends a RESTORE entry with `success=True` and returns `True`.  The
`except` arm returning `False` does not arise in the model since modeled
filesystem operations do not raise. -/
def undoLastOperation (st : FMState) : Bool × FMState :=
  if canUndo st.history then
    match st.history.getLast? with
    | none => (false, st)
    | some lastOp =>
      if lastOp.success then
        match lastOp.type with
        | OpType.move =>
          let fs' :=
            match lastOp.destination with
            | some d =>
              match fsGet st.fs d with
              | some c => fsInsert (fsRemove st.fs d) lastOp.source c
              | none => st.fs
            | none => st.fs
          (true, ⟨fs', st.history ++ [restoreEntry lastOp], st.backupStore⟩)
        | OpType.copy =>
          let fs' :=
            match lastOp.destination with
            | some d => if fsExists st.fs d then fsRemove st.fs d else st.fs
            | none => st.fs
          (true, ⟨fs', st.history ++ [restoreEntry lastOp], st.backupStore⟩)
        | OpType.delete =>
          match lastOp.backupId, st.backupStore with
          | some bid, some store =>
            ((restoreBackup store bid st.fs).1,
              ⟨(restoreBackup store bid st.fs).2, st.history, st.backupStore⟩)
          | some _, none =>
            (true, ⟨st.fs, st.history ++ [restoreEntry lastOp], st.backupStore⟩)
          | none, _ =>
            (true, ⟨st.fs, st.history ++ [restoreEntry lastOp], st.backupStore⟩)
        | OpType.restore =>
          (true, ⟨st.fs, st.history ++ [restoreEntry lastOp], st.backupStore⟩)
      else (false, st)
  else (false, st)

/-- Failing input for claim C2: the file deleted as a duplicate. -/
def c2Src : P := ⟨["C:", "proj", "textures"], "wood", ".jpg"⟩

/-- Failing input for claim C2: a successful DELETE carrying backup id "B". -/
def c2DeleteOp : Operation :=
  ⟨OpType.delete, c2Src, none, true, none, some "B", some ["C:", "proj"]⟩

/-- Failing input for claim C2: the backup manager holds run "B" with the
deleted file's bytes. -/
def c2Store : BackupStore := ⟨[("B", [(c2Src, [7, 8])])]⟩

/-- Failing input for claim C2: history ends (and starts) with the DELETE;
the file is gone from disk; the backup manager is present. -/
def c2State : FMState := ⟨[], [c2DeleteOp], some c2Store⟩

/-- Witness scenario for claim C10: source of the recorded MOVE. -/
def c10Src : P := ⟨["C:", "proj", "textures"], "noise", ".tga"⟩

/-- Witness scenario for claim C10: destination of the recorded MOVE,
no longer on disk. -/
def c10Dst : P := ⟨["C:", "proj", "maps"], "noise", ".tga"⟩

def c10MoveOp : Operation :=
  ⟨OpType.move, c10Src, some c10Dst, true, none, none, none⟩

def c10State : FMState := ⟨[], [c10MoveOp], none⟩

/-! ### max_parser.py -/

/-- Embeds `SceneAssets` (max_parser.py, lines 15-23); the Python sets are
modeled as lists, membership being the set membership (no claim depends on
iteration order). -/
structure SceneAssets where
  textures : List String
  proxies : List String
  otherAssets : List String
  errors : List String
  deriving DecidableEq, Repr

/-- One pass of Python's `str.replace("\\\\", "\\")`: each non-overlapping
pair of backslashes becomes one, scanning left to right. -/
def replacePairs : List Char → List Char
  | '\\' :: '\\' :: rest => '\\' :: replacePairs rest
  | c :: rest => c :: replacePairs rest
  | [] => []

/-- Does the character list contain two adjacent backslashes
(Python's `'\\\\' in normalized`)? -/
def hasDoubleSep : List Char → Bool
  | '\\' :: '\\' :: _ => true
  | _ :: rest => hasDoubleSep rest
  | [] => false

/-- Does the path start with two backslashes (a UNC path)? -/
def startsWithDouble : List Char → Bool
  | '\\' :: '\\' :: _ => true
  | _ => false

/-- The `while '\\\\' in normalized and not normalized.startswith('\\\\')`
loop of `_clean_paths`, with explicit fuel; each pass strictly shortens the
list, so `length` passes suffice. -/
def collapseLoop : Nat → List Char → List Char
  | 0, s => s
  | fuel + 1, s =>
    if hasDoubleSep s && !startsWithDouble s then collapseLoop fuel (replacePairs s)
    else s

/-- Embeds the per-path normalization inside `clean_set`
(max_parser.py, lines 391-398): `p.replace('/', '\\')`, then collapse
internal double backslashes while the path is not UNC. -/
def normalizePathChars (l : List Char) : List Char :=
  collapseLoop l.length (l.map (fun c => if c = '/' then '\\' else c))

def cleanOne (s : String) : String := ⟨normalizePathChars s.data⟩

/-- Embeds `clean_set` of `_clean_paths` (max_parser.py, lines 389-399): the
resulting set's members are exactly the normalized paths — `set.add`
removes only exact duplicates, nothing else. -/
def cleanSet (paths : List String) : List String := paths.map cleanOne

/-- Embeds `_clean_paths` (max_parser.py, lines 386-403): clean each of the
three sets. -/
def cleanPathsAssets (a : SceneAssets) : SceneAssets :=
  ⟨cleanSet a.textures, cleanSet a.proxies, cleanSet a.otherAssets, a.errors⟩

/-- Embeds `resolve_path` inside `_resolve_relative_paths` (max_parser.py,
lines 373-380).  The filesystem-dependent `(scene_dir / path).resolve()`
call is abstracted as the parameter `resolveFn`. -/
def resolveOne (resolveFn : String → String) (p : String) : String :=
  if p.startsWith ".." || p.startsWith ".\\" || p.startsWith "./" then resolveFn p
  else p

/-- Embeds `_resolve_relative_paths` (max_parser.py, lines 368-384). -/
def resolveRelativeAssets (resolveFn : String → String) (a : SceneAssets) :
    SceneAssets :=
  ⟨a.textures.map (resolveOne resolveFn), a.proxies.map (resolveOne resolveFn),
    a.otherAssets.map (resolveOne resolveFn), a.errors⟩

/-- The aspects of a `parse_scene` invocation determined by the filesystem
and the OLE library: whether the path exists, its suffix, whether `olefile`
recognizes the container, what `_extract_from_ole` accumulates into the
result sets (the three extraction passes are byte-scanning heuristics whose
output is opaque to the claims below), and the message of an exception
raised while reading, if any. -/
structure MaxFileInput where
  pathExists : Bool
  suffix : String
  isOleFile : Bool
  extracted : SceneAssets
  extractError : Option String

/-- Embeds `MaxFileParser.parse_scene` (max_parser.py, lines 81-117): missing
file, wrong suffix and non-OLE container each append one error and return
with all sets untouched (hence empty); otherwise the extracted sets (plus
the error of an exception caught mid-extraction, if any) flow through
`_resolve_relative_paths` and `_clean_paths`.  The model function is total:
every outcome is a returned `SceneAssets`, matching the never-throws
contract. -/
def parseScene (resolveFn : String → String) (inp : MaxFileInput) : SceneAssets :=
  if inp.pathExists = false then ⟨[], [], [], ["Файл не найден"]⟩
  else if strLower inp.suffix ≠ ".max" then ⟨[], [], [], ["Неверный формат файла"]⟩
  else if inp.isOleFile = false then ⟨[], [], [], ["Файл не является OLE"]⟩
  else
    let base : SceneAssets :=
      match inp.extractError with
      | some msg =>
        ⟨inp.extracted.textures, inp.extracted.proxies,
          inp.extracted.otherAssets, inp.extracted.errors ++ [msg]⟩
      | none => inp.extracted
    cleanPathsAssets (resolveRelativeAssets resolveFn base)

/-- Witness input for claim C4: a missing file. -/
def c4Missing : MaxFileInput := ⟨false, ".max", true, ⟨[], [], [], []⟩, none⟩

/-- Failing input for claim C7: two texture paths differing only in case
(forward slashes to exercise separator normalization as well). -/
def c7Textures : List String := ["C:/a/WOOD.JPG", "C:/a/wood.jpg"]

/-! ### asset_analyzer.py -/

/-- Characters treated as path separators by `pathlib.PureWindowsPath.name`
(the tool targets Windows paths; both separators occur in scene references). -/
def isSepChar (c : Char) : Bool := c = '\\' || c = '/'

/-- Embeds `Path(s).name`: the characters after the last path separator. -/
def baseName (s : String) : String :=
  ⟨s.data.foldl (fun acc c => if isSepChar c then [] else acc ++ [c]) []⟩

/-- Embeds the keys of `scene_names_index` (asset_analyzer.py,
lines 269-279): the lowercased basename of each reference path. -/
def sceneNameKeys (usedAssets : List String) : List String :=
  usedAssets.map (fun a => strLower (baseName a))

/-- Embeds the linked branch of `_compare_assets` (asset_analyzer.py,
lines 284-301): the files whose lowercased name is a key of the scene name
index.  `files` lists the scanned `all_files_info` records, which coincide
with `all_folder_files` (both are filled by the same `_scan_folder_deep`
loop). -/
def compareLinked (files : List P) (used : List String) : List P :=
  files.filter (fun f => decide (lowerName f ∈ sceneNameKeys used))

/-- Embeds the unused branch of `_compare_assets`: the scanned files whose
lowercased name is not in the index. -/
def compareUnused (files : List P) (used : List String) : List P :=
  files.filter (fun f => decide (lowerName f ∉ sceneNameKeys used))

/-- Embeds the `is_used` flag assignment of `_compare_assets`. -/
def markUsed (used : List String) (f : P) : Bool :=
  decide (lowerName f ∈ sceneNameKeys used)

/-- Embeds the missing-file loop of `_compare_assets` (asset_analyzer.py,
lines 303-315): a distinct reference path lands in `missing_files` iff its
lowercased basename is not among the scanned files' lowercased names and the
literal reference path does not exist on disk (`diskExists`). -/
def compareMissing (files : List P) (used : List String)
    (diskExists : String → Bool) : List String :=
  used.filter (fun a =>
    decide (strLower (baseName a) ∉ files.map lowerName) && !diskExists a)

/-- Witness file for the case-insensitivity half of claim C5. -/
def c5File : P := ⟨["C:", "proj", "textures"], "wood", ".jpg"⟩

/-! ### Witness scenario for claim C1 -/

def c1P : P := ⟨["D:", "job", "tex"], "brick", ".png"⟩

def c1Dest : P := ⟨["D:", "job", "maps"], "brick", ".png"⟩

def c1FS : FS := [(c1P, [1, 2, 3])]

def c1A : Analysis := ⟨["D:", "job"], [], [c1P], []⟩

def c1Flags : OrganizeFlags := ⟨true, false, false, true⟩

/-! ## Theorems -/

/-- Claim C9: `can_undo()` returns true if and only if the history is
non-empty, its most recent entry has `success = true`, and that entry's type
is not RESTORE; in particular it is false on an empty history. -/
theorem canUndo_spec :
    (∀ ops : List Operation,
      canUndo ops = true ↔
        ∃ lastOp, ops.getLast? = some lastOp ∧ lastOp.success = true ∧
          lastOp.type ≠ OpType.restore) ∧
    canUndo [] = false := by
  constructor
  · intro ops
    unfold canUndo
    cases h : ops.getLast? with
    | none => simp
    | some o => simp
  · rfl

/-- Witness for claim C9: the empty history cannot be undone. -/
theorem canUndo_spec_witness : canUndo [] = false := canUndo_spec.2

theorem decDigitVal_digitChar {r : Nat} (h : r < 10) :
    decDigitVal (Nat.digitChar r) = r := by
  interval_cases r <;> rfl

theorem decValue_append_singleton (l : List Char) (c : Char) :
    decValue (l ++ [c]) = 10 * decValue l + decDigitVal c := by
  simp [decValue, List.foldl_append]

theorem toDigitsCore_append (b f : Nat) :
    ∀ (n : Nat) (ds : List Char),
      Nat.toDigitsCore b f n ds = Nat.toDigitsCore b f n [] ++ ds := by
  induction f with
  | zero => intro n ds; rfl
  | succ f ih =>
    intro n ds
    simp only [Nat.toDigitsCore]
    by_cases h : n / b = 0
    · simp [h]
    · simp only [h, if_neg h]
      rw [ih (n / b) (Nat.digitChar (n % b) :: ds),
        ih (n / b) [Nat.digitChar (n % b)]]
      simp

theorem decValue_toDigitsCore :
    ∀ (f n : Nat), n < 10 ^ f → decValue (Nat.toDigitsCore 10 f n []) = n := by
  intro f
  induction f with
  | zero =>
    intro n hn
    interval_cases n
    rfl
  | succ f ih =>
    intro n hn
    have hlt : n % 10 < 10 := Nat.mod_lt n (by omega)
    by_cases h : n / 10 = 0
    · have hd : Nat.toDigitsCore 10 (f + 1) n [] = [(n % 10).digitChar] := by
        simp only [Nat.toDigitsCore]
        rw [if_pos h]
      rw [hd]
      have hone : decValue [(n % 10).digitChar] = decDigitVal (n % 10).digitChar := by
        simp [decValue]
      rw [hone, decDigitVal_digitChar hlt]
      omega
    · have hd : Nat.toDigitsCore 10 (f + 1) n [] =
          Nat.toDigitsCore 10 f (n / 10) [(n % 10).digitChar] := by
        simp only [Nat.toDigitsCore]
        rw [if_neg h]
      rw [hd, toDigitsCore_append, decValue_append_singleton]
      have hdiv : n / 10 < 10 ^ f := by
        have h10 : (0:Nat) < 10 := by omega
        exact (Nat.div_lt_iff_lt_mul h10).mpr (by rw [← pow_succ]; exact hn)
      rw [ih (n / 10) hdiv, decDigitVal_digitChar hlt]
      omega

theorem decValue_toDigits (n : Nat) : decValue (Nat.toDigits 10 n) = n := by
  have h : n < 10 ^ (n + 1) :=
    lt_trans (Nat.lt_succ_self n) (Nat.lt_pow_self (by omega) (n + 1))
  exact decValue_toDigitsCore (n + 1) n h

theorem natRepr_injective : Function.Injective Nat.repr := by
  intro a b h
  have hdig : Nat.toDigits 10 a = Nat.toDigits 10 b := by
    have := congrArg String.data h
    simpa [Nat.repr, List.asString] using this
  have := congrArg decValue hdig
  rwa [decValue_toDigits, decValue_toDigits] at this

theorem candidateName_injective (path : P) :
    Function.Injective (candidateName path) := by
  intro a b h
  have hstem : path.stem ++ "_" ++ Nat.repr a = path.stem ++ "_" ++ Nat.repr b :=
    congrArg P.stem h
  have hdata := congrArg String.data hstem
  simp only [String.data_append] at hdata
  have hrepr : (Nat.repr a).data = (Nat.repr b).data :=
    List.append_cancel_left hdata
  have : Nat.repr a = Nat.repr b := by
    cases ha : Nat.repr a
    cases hb : Nat.repr b
    simp_all
  exact natRepr_injective this

theorem fsExists_true_mem {fs : FS} {p : P} (h : fsExists fs p = true) :
    p ∈ fs.map Prod.fst := by
  unfold fsExists fsGet at h
  cases hf : fs.find? (fun e => decide (e.1 = p)) with
  | none => rw [hf] at h; simp at h
  | some e =>
    have hmem := List.mem_of_find?_eq_some hf
    have hpred := List.find?_some hf
    simp only [decide_eq_true_eq] at hpred
    exact hpred ▸ List.mem_map_of_mem Prod.fst hmem

/-- In a finite filesystem some candidate name `stem_N` with `1 ≤ N ≤
fs.length + 1` is free: the candidates are pairwise distinct and the
filesystem holds only `fs.length` paths.  This bounds the
`while new_path.exists()` loop. -/
theorem exists_free_candidate (fs : FS) (path : P) :
    ∃ n, n < fs.length + 1 ∧
      fsExists fs (candidateName path (n + 1)) = false := by
  by_contra hall
  push_neg at hall
  have hmem : ∀ n, n < fs.length + 1 → candidateName path (n + 1) ∈ fs.map Prod.fst := by
    intro n hn
    have h := hall n hn
    have : fsExists fs (candidateName path (n + 1)) = true := by
      cases hb : fsExists fs (candidateName path (n + 1))
      · exact absurd hb h
      · rfl
    exact fsExists_true_mem this
  have hinj : Function.Injective (fun n => candidateName path (n + 1)) := by
    intro a b hab
    have := candidateName_injective path hab
    omega
  have hsub : (Finset.range (fs.length + 1)).image
      (fun n => candidateName path (n + 1)) ⊆ (fs.map Prod.fst).toFinset := by
    intro x hx
    simp only [Finset.mem_image, Finset.mem_range] at hx
    obtain ⟨n, hn, rfl⟩ := hx
    simpa [List.mem_toFinset] using hmem n hn
  have hcard := Finset.card_le_card hsub
  rw [Finset.card_image_of_injective _ hinj, Finset.card_range] at hcard
  have hlen : (fs.map Prod.fst).toFinset.card ≤ (fs.map Prod.fst).length :=
    (fs.map Prod.fst).toFinset_card_le
  rw [List.length_map] at hlen
  omega

theorem uniqueNameLoop_spec (fs : FS) (path : P) :
    ∀ (fuel counter : Nat),
      (∃ k, k < fuel ∧ fsExists fs (candidateName path (counter + k)) = false) →
      ∃ k, k < fuel ∧ fsExists fs (candidateName path (counter + k)) = false ∧
        (∀ j, j < k → fsExists fs (candidateName path (counter + j)) = true) ∧
        uniqueNameLoop fs path fuel counter = candidateName path (counter + k) := by
  intro fuel
  induction fuel with
  | zero =>
    intro counter h
    obtain ⟨k, hk, _⟩ := h
    omega
  | succ fuel ih =>
    intro counter h
    obtain ⟨k, hk, hfree⟩ := h
    by_cases hcur : fsExists fs (candidateName path counter) = true
    · have hk0 : k ≠ 0 := by
        intro h0
        rw [h0, Nat.add_zero] at hfree
        rw [hcur] at hfree
        exact Bool.true_eq_false.mp hfree
      obtain ⟨k', rfl⟩ : ∃ k', k = k' + 1 := ⟨k - 1, by omega⟩
      have hex : ∃ k2, k2 < fuel ∧
          fsExists fs (candidateName path (counter + 1 + k2)) = false := by
        refine ⟨k', by omega, ?_⟩
        rw [show counter + 1 + k' = counter + (k' + 1) by omega]
        exact hfree
      obtain ⟨k2, hk2, hfree2, hmin2, heq2⟩ := ih (counter + 1) hex
      refine ⟨k2 + 1, by omega, ?_, ?_, ?_⟩
      · rw [show counter + (k2 + 1) = counter + 1 + k2 by omega]
        exact hfree2
      · intro j hj
        cases j with
        | zero => simpa using hcur
        | succ j' =>
          rw [show counter + (j' + 1) = counter + 1 + j' by omega]
          exact hmin2 j' (by omega)
      · show uniqueNameLoop fs path (fuel + 1) counter = _
        simp only [uniqueNameLoop]
        rw [if_pos hcur, heq2,
          show counter + 1 + k2 = counter + (k2 + 1) by omega]
    · have hfalse : fsExists fs (candidateName path counter) = false := by
        cases hb : fsExists fs (candidateName path counter)
        · rfl
        · exact absurd hb hcur
      refine ⟨0, by omega, by simpa using hfalse, by omega, ?_⟩
      show uniqueNameLoop fs path (fuel + 1) counter = _
      simp only [uniqueNameLoop]
      rw [if_neg (by rw [hfalse]; simp), Nat.add_zero]

/-- Claim C8: `_get_unique_name(p)` returns `p` itself when `p` does not
exist, and otherwise returns `parent/stem_N+suffix` for the smallest positive
`N` whose path does not exist; the returned path never exists at return
time. -/
theorem getUniqueName_spec (fs : FS) (path : P) :
    (fsExists fs path = false → getUniqueName fs path = path) ∧
    (fsExists fs path = true →
      ∃ N, 0 < N ∧ getUniqueName fs path = candidateName path N ∧
        fsExists fs (candidateName path N) = false ∧
        ∀ m, 0 < m → m < N → fsExists fs (candidateName path m) = true) ∧
    fsExists fs (getUniqueName fs path) = false := by
  have hmain : fsExists fs path = true →
      ∃ N, 0 < N ∧ getUniqueName fs path = candidateName path N ∧
        fsExists fs (candidateName path N) = false ∧
        ∀ m, 0 < m → m < N → fsExists fs (candidateName path m) = true := by
    intro h
    obtain ⟨n, hn, hfree⟩ := exists_free_candidate fs path
    have hex : ∃ k, k < fs.length + 1 ∧
        fsExists fs (candidateName path (1 + k)) = false := by
      refine ⟨n, hn, ?_⟩
      rw [show 1 + n = n + 1 by omega]
      exact hfree
    obtain ⟨k, hk, hfreek, hmin, heq⟩ := uniqueNameLoop_spec fs path (fs.length + 1) 1 hex
    refine ⟨1 + k, by omega, ?_, hfreek, ?_⟩
    · rw [getUniqueName, if_pos h]
      exact heq
    · intro m hm hmlt
      obtain ⟨j, rfl⟩ : ∃ j, m = 1 + j := ⟨m - 1, by omega⟩
      exact hmin j (by omega)
  refine ⟨?_, hmain, ?_⟩
  · intro h
    rw [getUniqueName, if_neg (by rw [h]; simp)]
  · by_cases h : fsExists fs path = true
    · obtain ⟨N, _, heq, hfree, _⟩ := hmain h
      rw [heq]
      exact hfree
    · have hfalse : fsExists fs path = false := by
        cases hb : fsExists fs path
        · rfl
        · exact absurd hb h
      rw [getUniqueName, if_neg (by rw [hfalse]; simp)]
      exact hfalse

/-- Witness for claim C8: with `C:/a.jpg` on disk, the returned name is free;
with the fresh name `C:/b.jpg`, both branches of the specification apply. -/
theorem getUniqueName_spec_witness :
    (fsExists [((⟨["C:"], "a", ".jpg"⟩ : P), ([0] : Content))]
        (⟨["C:"], "b", ".jpg"⟩ : P) = false →
      getUniqueName [((⟨["C:"], "a", ".jpg"⟩ : P), ([0] : Content))]
        ⟨["C:"], "b", ".jpg"⟩ = ⟨["C:"], "b", ".jpg"⟩) ∧
    fsExists [((⟨["C:"], "a", ".jpg"⟩ : P), ([0] : Content))]
      (getUniqueName [((⟨["C:"], "a", ".jpg"⟩ : P), ([0] : Content))]
        ⟨["C:"], "a", ".jpg"⟩) = false :=
  ⟨(getUniqueName_spec [((⟨["C:"], "a", ".jpg"⟩ : P), ([0] : Content))]
      ⟨["C:"], "b", ".jpg"⟩).1,
    (getUniqueName_spec [((⟨["C:"], "a", ".jpg"⟩ : P), ([0] : Content))]
      ⟨["C:"], "a", ".jpg"⟩).2.2⟩

/-! ### Claim C1: backup precedes every destructive mutation -/

theorem coveredRun_mono : ∀ (tr : List Ev) (s t : List P), (∀ x ∈ s, x ∈ t) →
    coveredRun s tr → coveredRun t tr := by
  intro tr
  induction tr with
  | nil => intro s t _ _; trivial
  | cons e rest ih =>
    intro s t hsub h
    obtain ⟨h1, h2⟩ := h
    refine ⟨fun p hp => hsub p (h1 p hp), ?_⟩
    refine ih (seenAfter s e) (seenAfter t e) ?_ h2
    intro x hx
    cases e with
    | backupEv q =>
      simp only [seenAfter, List.mem_cons] at hx ⊢
      rcases hx with rfl | hx
      · exact Or.inl rfl
      · exact Or.inr (hsub _ hx)
    | moveEv s' d => exact hsub _ hx
    | copyEv s' d => exact hsub _ hx
    | deleteEv p => exact hsub _ hx

theorem coveredRun_append : ∀ (a b : List Ev) (s : List P),
    coveredRun s a → coveredRun [] b → coveredRun s (a ++ b) := by
  intro a
  induction a with
  | nil =>
    intro b s _ hb
    simpa using coveredRun_mono b [] s (by simp) hb
  | cons e rest ih =>
    intro b s ha hb
    obtain ⟨h1, h2⟩ := ha
    exact ⟨h1, ih b (seenAfter s e) h2 hb⟩

theorem coveredRun_of_all_src (p : P) : ∀ (ch : List Ev),
    (∀ e ∈ ch, destructiveSrc e = some p) → coveredRun [p] ch := by
  intro ch
  induction ch with
  | nil => intro _; trivial
  | cons e rest ih =>
    intro h
    have he := h e (List.mem_cons_self e rest)
    refine ⟨fun q hq => ?_, ?_⟩
    · rw [he] at hq
      injection hq with h'
      simp [h']
    · have hseen : seenAfter [p] e = [p] := by
        cases e with
        | backupEv q => simp [destructiveSrc] at he
        | moveEv s d => rfl
        | copyEv s d => rfl
        | deleteEv q => rfl
      rw [hseen]
      exact ih (fun e' he' => h e' (List.mem_cons_of_mem _ he'))

theorem coveredRun_backup_before : ∀ (tr : List Ev) (seen : List P),
    coveredRun seen tr →
    ∀ pre e post p, tr = pre ++ e :: post → destructiveSrc e = some p →
      p ∈ seen ∨ Ev.backupEv p ∈ pre := by
  intro tr
  induction tr with
  | nil =>
    intro seen _ pre e post p htr _
    exact absurd htr (by simp)
  | cons x rest ih =>
    intro seen hc pre e post p htr hd
    obtain ⟨h1, h2⟩ := hc
    cases pre with
    | nil =>
      simp only [List.nil_append, List.cons.injEq] at htr
      obtain ⟨rfl, rfl⟩ := htr
      exact Or.inl (h1 p hd)
    | cons y pre' =>
      simp only [List.cons_append, List.cons.injEq] at htr
      obtain ⟨rfl, hrest⟩ := htr
      rcases ih (seenAfter seen x) h2 pre' e post p hrest hd with hseen | hpre
      · cases hx : x with
        | backupEv q =>
          rw [hx] at hseen
          simp only [seenAfter, List.mem_cons] at hseen
          rcases hseen with rfl | hseen
          · exact Or.inr (by simp [hx])
          · exact Or.inl hseen
        | moveEv s d => rw [hx] at hseen; exact Or.inl hseen
        | copyEv s d => rw [hx] at hseen; exact Or.inl hseen
        | deleteEv q => rw [hx] at hseen; exact Or.inl hseen
      · exact Or.inr (List.mem_cons_of_mem _ hpre)

theorem fsGet_eq_none_of_not_exists {fs : FS} {p : P}
    (h : fsExists fs p = false) : fsGet fs p = none := by
  unfold fsExists at h
  cases hg : fsGet fs p
  · rfl
  · rw [hg] at h; simp at h

theorem backupFileOp_not_exists {st : OrgState} {p : P} (eb : Bool)
    (h : fsExists st.fs p = false) : backupFileOp eb st p = st := by
  unfold backupFileOp
  rw [h]
  simp

theorem backupFileOp_exists {st : OrgState} {p : P}
    (h : fsExists st.fs p = true) :
    backupFileOp true st p = ⟨st.fs, st.trace ++ [Ev.backupEv p]⟩ := by
  unfold backupFileOp
  rw [h]
  simp

theorem backupFileOp_fs (eb : Bool) (st : OrgState) (p : P) :
    (backupFileOp eb st p).fs = st.fs := by
  unfold backupFileOp
  split <;> rfl

theorem moveFileOp_missing {st : OrgState} {src : P} (d : List String) (c r : Bool)
    (h : fsGet st.fs src = none) : moveFileOp st src d c r = st := by
  unfold moveFileOp
  rw [h]

theorem moveFileOp_chunk_of_exists {st : OrgState} {src : P} {cc : Content}
    (d : List String) (c r : Bool) (h : fsGet st.fs src = some cc) :
    ∃ e, (moveFileOp st src d c r).trace = st.trace ++ [e] ∧
      destructiveSrc e = some src := by
  unfold moveFileOp
  rw [h]
  cases c with
  | true => exact ⟨_, rfl, rfl⟩
  | false => exact ⟨_, rfl, rfl⟩

theorem deleteFileOp_missing {st : OrgState} {p : P}
    (h : fsExists st.fs p = false) : deleteFileOp st p = st := by
  unfold deleteFileOp
  rw [h]
  simp

theorem deleteFileOp_exists {st : OrgState} {p : P}
    (h : fsExists st.fs p = true) :
    deleteFileOp st p = ⟨fsRemove st.fs p, st.trace ++ [Ev.deleteEv p]⟩ := by
  unfold deleteFileOp
  rw [h]
  simp

/-- A backup-then-mutate pair of the shape every organize step produces. -/
theorem coveredRun_backup_chunk (p : P) (ch : List Ev)
    (h : ∀ e ∈ ch, destructiveSrc e = some p) :
    coveredRun [] (Ev.backupEv p :: ch) := by
  refine ⟨fun q hq => by simp [destructiveSrc] at hq, ?_⟩
  exact coveredRun_of_all_src p ch h

theorem backup_then_move_covered (st : OrgState) (p : P) (d : List String)
    (c r : Bool) :
    ∃ ch, (moveFileOp (backupFileOp true st p) p d c r).trace = st.trace ++ ch ∧
      coveredRun [] ch := by
  cases hb : fsExists st.fs p with
  | false =>
    rw [backupFileOp_not_exists true hb,
      moveFileOp_missing d c r (fsGet_eq_none_of_not_exists hb)]
    exact ⟨[], by simp, trivial⟩
  | true =>
    rw [backupFileOp_exists hb]
    have hg : fsGet st.fs p ≠ none := by
      unfold fsExists at hb
      intro hx
      rw [hx] at hb
      simp at hb
    obtain ⟨cc, hcc⟩ := Option.ne_none_iff_exists'.mp hg
    obtain ⟨e, he, hd⟩ :=
      @moveFileOp_chunk_of_exists ⟨st.fs, st.trace ++ [Ev.backupEv p]⟩ p cc d c r hcc
    refine ⟨[Ev.backupEv p, e], ?_, ?_⟩
    · rw [he]
      simp
    · exact coveredRun_backup_chunk p [e] (by intro e' he'; simp at he'; rw [he']; exact hd)

theorem backup_then_delete_covered (st : OrgState) (p : P) :
    ∃ ch, (deleteFileOp (backupFileOp true st p) p).trace = st.trace ++ ch ∧
      coveredRun [] ch := by
  cases hb : fsExists st.fs p with
  | false =>
    rw [backupFileOp_not_exists true hb, deleteFileOp_missing hb]
    exact ⟨[], by simp, trivial⟩
  | true =>
    rw [backupFileOp_exists hb]
    rw [@deleteFileOp_exists ⟨st.fs, st.trace ++ [Ev.backupEv p]⟩ p hb]
    refine ⟨[Ev.backupEv p, Ev.deleteEv p], by simp, ?_⟩
    exact coveredRun_backup_chunk p [Ev.deleteEv p]
      (by intro e' he'; simp at he'; rw [he']; rfl)

theorem processOther_covered (dd : Bool) (scenes : List P) (mapsDir : List String)
    (mh : Option (Nat × Content)) (st : OrgState) (other : P) :
    ∃ ch, (processOther true dd scenes mapsDir mh st other).trace = st.trace ++ ch ∧
      coveredRun [] ch := by
  unfold processOther
  by_cases hif : (decide (fileHash st.fs other = mh) && dd) = true
  · rw [if_pos hif]
    exact backup_then_delete_covered st other
  · rw [if_neg hif, backupFileOp_fs]
    exact backup_then_move_covered st other mapsDir
      (!isFileInSceneFolder st.fs scenes other) true

theorem foldl_covered {α : Type} (f : OrgState → α → OrgState)
    (hf : ∀ st x, ∃ ch, (f st x).trace = st.trace ++ ch ∧ coveredRun [] ch) :
    ∀ (l : List α) (st : OrgState),
      ∃ ch, (l.foldl f st).trace = st.trace ++ ch ∧ coveredRun [] ch := by
  intro l
  induction l with
  | nil => intro st; exact ⟨[], by simp, trivial⟩
  | cons x xs ih =>
    intro st
    obtain ⟨ch1, h1, hc1⟩ := hf st x
    obtain ⟨ch2, h2, hc2⟩ := ih (f st x)
    refine ⟨ch1 ++ ch2, ?_, coveredRun_append ch1 ch2 [] hc1 hc2⟩
    rw [List.foldl_cons, h2, h1, List.append_assoc]

theorem processDupGroup_covered (dd : Bool) (scenes : List P)
    (mapsDir : List String) (st : OrgState) (ps : List P) :
    ∃ ch, (processDupGroup true dd scenes mapsDir st ps).trace = st.trace ++ ch ∧
      coveredRun [] ch := by
  unfold processDupGroup
  cases hin : (ps.filter (fun fp => isInFolder fp mapsDir)).getLast? with
  | some master =>
    exact foldl_covered _
      (fun st' x => processOther_covered dd scenes mapsDir
        (fileHash st.fs master) st' x) _ st
  | none =>
    cases hoth : ps.filter (fun fp => !isInFolder fp mapsDir) with
    | nil => exact ⟨[], by simp, trivial⟩
    | cons master rest' =>
      dsimp only
      rw [backupFileOp_fs]
      obtain ⟨ch1, h1, hc1⟩ :=
        backup_then_move_covered st master mapsDir
          (!isFileInSceneFolder st.fs scenes master) false
      obtain ⟨ch2, h2, hc2⟩ :=
        foldl_covered _
          (fun st' x => processOther_covered dd scenes mapsDir
            (fileHash st.fs master) st' x) rest'
          (moveFileOp (backupFileOp true st master) master mapsDir
            (!isFileInSceneFolder st.fs scenes master) false)
      refine ⟨ch1 ++ ch2, ?_, coveredRun_append ch1 ch2 [] hc1 hc2⟩
      rw [h2, h1, List.append_assoc]

theorem processGroup_covered (scenes : List P) (mapsDir : List String)
    (dd : Bool) (st : OrgState) (g : String × List P) :
    ∃ ch, (processGroup true scenes mapsDir dd st g).trace = st.trace ++ ch ∧
      coveredRun [] ch := by
  obtain ⟨key, ps⟩ := g
  match ps with
  | [] => exact ⟨[], by simp [processGroup], trivial⟩
  | [p] =>
    by_cases hin : isInFolder p mapsDir = true
    · exact ⟨[], by simp [processGroup, hin], trivial⟩
    · have hred : processGroup true scenes mapsDir dd st (key, [p]) =
          moveFileOp (backupFileOp true st p) p mapsDir
            (!isFileInSceneFolder (backupFileOp true st p).fs scenes p) false := by
        simp [processGroup, hin]
      rw [hred, backupFileOp_fs]
      exact backup_then_move_covered st p mapsDir
        (!isFileInSceneFolder st.fs scenes p) false
  | p :: q :: rest =>
    exact processDupGroup_covered dd scenes mapsDir st (p :: q :: rest)

theorem processUnused_covered (scenes : List P) (unusedDir : List String)
    (st : OrgState) (p : P) :
    ∃ ch, (processUnused true scenes unusedDir st p).trace = st.trace ++ ch ∧
      coveredRun [] ch := by
  unfold processUnused
  by_cases h1 : fsExists st.fs p = false
  · rw [if_pos h1]; exact ⟨[], by simp, trivial⟩
  · rw [if_neg h1]
    by_cases h2 : lowerExt p = ".max"
    · rw [if_pos h2]; exact ⟨[], by simp, trivial⟩
    · rw [if_neg h2]
      by_cases h3 : isInFolder p unusedDir = true
      · rw [if_pos h3]; exact ⟨[], by simp, trivial⟩
      · rw [if_neg h3, backupFileOp_fs]
        exact backup_then_move_covered st p unusedDir
          (!isFileInSceneFolder st.fs scenes p) false

theorem organizeAssets_covered (a : Analysis) (flags : OrganizeFlags) (fs0 : FS) :
    coveredRun [] (organizeAssets true a flags fs0).trace := by
  unfold organizeAssets
  have hst1 : ∃ ch,
      (if flags.createMapsFolder then
        (groupByName fs0 a.linkedFiles).foldl
          (processGroup true a.scenes (a.basePath ++ ["maps"]) flags.deleteDuplicates)
          (⟨fs0, []⟩ : OrgState)
      else (⟨fs0, []⟩ : OrgState)).trace = [] ++ ch ∧ coveredRun [] ch := by
    by_cases hc : flags.createMapsFolder = true
    · rw [if_pos hc]
      obtain ⟨ch, h, hcov⟩ :=
        foldl_covered _
          (fun st g => processGroup_covered a.scenes (a.basePath ++ ["maps"])
            flags.deleteDuplicates st g)
          (groupByName fs0 a.linkedFiles) ⟨fs0, []⟩
      exact ⟨ch, h, hcov⟩
    · rw [if_neg hc]
      exact ⟨[], rfl, trivial⟩
  obtain ⟨ch1, h1, hc1⟩ := hst1
  by_cases hu : (flags.moveUnused && decide (0 < unusedCount fs0 a)) = true
  · rw [if_pos hu]
    obtain ⟨ch2, h2, hc2⟩ :=
      foldl_covered _
        (fun st p => processUnused_covered a.scenes (a.basePath ++ ["unused"]) st p)
        a.unusedFiles _
    rw [h2, h1]
    simp only [List.nil_append]
    exact coveredRun_append ch1 ch2 [] hc1 hc2
  · rw [if_neg hu, h1]
    simpa using hc1

/-- Claim C1: during `organize_assets` with backup enabled, every destructive
filesystem mutation of a linked, duplicate or unused project file (every
move, copy or delete event in the run's trace) is preceded in the trace by a
`create_backup` event for that same file, so a backup entry exists for every
destructive operation performed while backup is enabled. -/
theorem organize_backup_before_mutation (a : Analysis) (flags : OrganizeFlags)
    (fs0 : FS) : backupBefore (organizeAssets true a flags fs0).trace := by
  intro pre e post p hsplit hdest
  rcases coveredRun_backup_before _ [] (organizeAssets_covered a flags fs0)
      pre e post p hsplit hdest with h | h
  · simp at h
  · exact h

/-- Demonstration that the claim-C1 trace property is not vacuous: a concrete
organize run whose trace contains a backup followed by a move. -/
theorem organizeAssets_c1_demo :
    (organizeAssets true c1A c1Flags c1FS).trace =
      [Ev.backupEv c1P, Ev.moveEv c1P c1Dest] := by decide

/-- Witness for claim C1: in the concrete run above, the move of `c1P` is
preceded by its backup event. -/
theorem organize_backup_before_mutation_witness :
    Ev.backupEv c1P ∈ [Ev.backupEv c1P] :=
  organize_backup_before_mutation c1A c1Flags c1FS [Ev.backupEv c1P]
    (Ev.moveEv c1P c1Dest) [] c1P (by decide) rfl

/-! ### Claim C3: the quick fingerprint sees only size, head and tail -/

/-- Claim C3: `_get_file_hash(quick=True)` is a function of exactly the byte
size, the first 1024 bytes and the last 1024 bytes — two readable files
agreeing on those three produce equal digest strings even if they differ in
the middle — and consequently `organize_assets` with `delete_duplicates`
enabled deletes the non-canonical one of two such same-named files (after
backing it up), leaving the canonical copy in place. -/
theorem quick_hash_head_tail_only (c1 c2 : Content)
    (hlen : c1.length = c2.length)
    (hhead : c1.take 1024 = c2.take 1024)
    (htail : c1.drop (c1.length - 1024) = c2.drop (c2.length - 1024)) :
    getFileHashQuick c1 = getFileHashQuick c2 ∧
    (organizeAssets true c3Analysis c3Flags (c3FS c1 c2)).trace =
      [Ev.backupEv c3NonCanon, Ev.deleteEv c3NonCanon] ∧
    fsExists (organizeAssets true c3Analysis c3Flags (c3FS c1 c2)).fs
      c3NonCanon = false ∧
    fsExists (organizeAssets true c3Analysis c3Flags (c3FS c1 c2)).fs
      c3Canon = true := by
  have hh : getFileHashQuick c1 = getFileHashQuick c2 := by
    unfold getFileHashQuick
    rw [htail, hhead, hlen]
  have hred1 : organizeAssets true c3Analysis c3Flags (c3FS c1 c2) =
      processOther true true [] (["C:", "proj"] ++ ["maps"])
        (fileHash (c3FS c1 c2) c3Canon) ⟨c3FS c1 c2, []⟩ c3NonCanon := rfl
  have horg : organizeAssets true c3Analysis c3Flags (c3FS c1 c2) =
      ⟨[(c3Canon, c2)], [Ev.backupEv c3NonCanon, Ev.deleteEv c3NonCanon]⟩ := by
    rw [hred1]
    unfold processOther
    have hfh : fileHash (c3FS c1 c2) c3NonCanon = fileHash (c3FS c1 c2) c3Canon := by
      show some (getFileHashQuick c1) = some (getFileHashQuick c2)
      rw [hh]
    have hcond : (decide (fileHash (c3FS c1 c2) c3NonCanon =
        fileHash (c3FS c1 c2) c3Canon) && true) = true := by
      rw [hfh]
      simp
    rw [if_pos hcond]
    rw [@backupFileOp_exists ⟨c3FS c1 c2, []⟩ c3NonCanon rfl]
    dsimp only
    rw [List.nil_append]
    rw [@deleteFileOp_exists ⟨c3FS c1 c2, [Ev.backupEv c3NonCanon]⟩ c3NonCanon rfl]
    rfl
  refine ⟨hh, ?_, ?_, ?_⟩
  · rw [horg]
  · rw [horg]
    rfl
  · rw [horg]
    rfl

theorem c3Head_len : c3Head.length = 1024 := by
  simp only [c3Head, List.length_replicate]

theorem c3Tail_len : c3Tail.length = 1024 := by
  simp only [c3Tail, List.length_replicate]

theorem c3Bytes_len1 : c3Bytes1.length = 2049 := by
  simp only [c3Bytes1, List.length_append, List.length_cons, c3Head_len, c3Tail_len]

theorem c3Bytes_len2 : c3Bytes2.length = 2049 := by
  simp only [c3Bytes2, List.length_append, List.length_cons, c3Head_len, c3Tail_len]

theorem c3Bytes_hlen : c3Bytes1.length = c3Bytes2.length := by
  rw [c3Bytes_len1, c3Bytes_len2]

theorem c3Bytes_hhead : c3Bytes1.take 1024 = c3Bytes2.take 1024 := by
  show (c3Head ++ 0 :: c3Tail).take 1024 = (c3Head ++ 1 :: c3Tail).take 1024
  rw [@List.take_left' _ c3Head (0 :: c3Tail) 1024 c3Head_len,
    @List.take_left' _ c3Head (1 :: c3Tail) 1024 c3Head_len]

theorem c3Bytes_htail : c3Bytes1.drop (c3Bytes1.length - 1024) =
    c3Bytes2.drop (c3Bytes2.length - 1024) := by
  rw [c3Bytes_len1, c3Bytes_len2]
  have e1 : c3Bytes1 = (c3Head ++ [0]) ++ c3Tail := by
    simp only [c3Bytes1, List.append_assoc, List.cons_append, List.nil_append]
  have e2 : c3Bytes2 = (c3Head ++ [1]) ++ c3Tail := by
    simp only [c3Bytes2, List.append_assoc, List.cons_append, List.nil_append]
  have hl : (c3Head ++ [(0:Nat)]).length = 2049 - 1024 := by
    simp only [List.length_append, List.length_cons, List.length_nil, c3Head_len]
  have hl' : (c3Head ++ [(1:Nat)]).length = 2049 - 1024 := by
    simp only [List.length_append, List.length_cons, List.length_nil, c3Head_len]
  rw [e1, e2, List.drop_left' hl, List.drop_left' hl']

theorem c3Bytes_ne : c3Bytes1 ≠ c3Bytes2 := by
  intro h
  have hle : c3Head.length ≤ 1024 := by rw [c3Head_len]
  have h1 : c3Bytes1[1024]? = some 0 := by
    show (c3Head ++ 0 :: c3Tail)[1024]? = some 0
    rw [List.getElem?_append_right hle]
    simp [c3Head_len]
  have h2 : c3Bytes2[1024]? = some 1 := by
    show (c3Head ++ 1 :: c3Tail)[1024]? = some 1
    rw [List.getElem?_append_right hle]
    simp [c3Head_len]
  rw [h, h2] at h1
  simp at h1

/-- Witness for claim C3 at two concrete 2049-byte files that agree on size,
head and tail but differ in the middle (byte 1024): their quick fingerprints
coincide and the organize run deletes the non-canonical copy. -/
theorem quick_hash_head_tail_only_witness :
    c3Bytes1.length = c3Bytes2.length ∧
    c3Bytes1.take 1024 = c3Bytes2.take 1024 ∧
    c3Bytes1.drop (c3Bytes1.length - 1024) =
      c3Bytes2.drop (c3Bytes2.length - 1024) ∧
    c3Bytes1 ≠ c3Bytes2 ∧
    getFileHashQuick c3Bytes1 = getFileHashQuick c3Bytes2 ∧
    (organizeAssets true c3Analysis c3Flags (c3FS c3Bytes1 c3Bytes2)).trace =
      [Ev.backupEv c3NonCanon, Ev.deleteEv c3NonCanon] :=
  ⟨c3Bytes_hlen, c3Bytes_hhead, c3Bytes_htail, c3Bytes_ne,
    (quick_hash_head_tail_only c3Bytes1 c3Bytes2 c3Bytes_hlen c3Bytes_hhead
      c3Bytes_htail).1,
    (quick_hash_head_tail_only c3Bytes1 c3Bytes2 c3Bytes_hlen c3Bytes_hhead
      c3Bytes_htail).2.1⟩

/-! ### Claims C2 and C10: undo_last_operation -/

/-- Claim C2 (code-bug demonstration): with the last operation a successful
DELETE carrying a backup id and the backup manager present,
`undo_last_operation` restores the file from its backup run and returns
`True` — but returns directly from inside the DELETE branch, so NO RESTORE
entry is appended: the history is unchanged and contains no RESTORE row,
where the specification (§4.5 and Scenario E) requires the log to gain
one. -/
theorem undo_delete_skips_restore_entry :
    (undoLastOperation c2State).1 = true ∧
    fsGet (undoLastOperation c2State).2.fs c2Src = some [7, 8] ∧
    (undoLastOperation c2State).2.history = [c2DeleteOp] ∧
    (undoLastOperation c2State).2.history.filter
      (fun op => decide (op.type = OpType.restore)) = [] := by decide

/-- Claim C10: when the last recorded operation is a successful MOVE whose
destination no longer exists on disk, `undo_last_operation` performs no
filesystem change, yet appends a RESTORE entry with `success = true` and
returns `True`. -/
theorem undo_move_missing_destination (st : FMState) (lastOp : Operation) (d : P)
    (hlast : st.history.getLast? = some lastOp)
    (htype : lastOp.type = OpType.move)
    (hsucc : lastOp.success = true)
    (hdest : lastOp.destination = some d)
    (hmiss : fsExists st.fs d = false) :
    (undoLastOperation st).1 = true ∧
    (undoLastOperation st).2.fs = st.fs ∧
    (undoLastOperation st).2.history = st.history ++ [restoreEntry lastOp] := by
  have hcu : canUndo st.history = true := by
    unfold canUndo
    rw [hlast]
    simp [hsucc, htype]
  have hget : fsGet st.fs d = none := fsGet_eq_none_of_not_exists hmiss
  have hred : undoLastOperation st =
      (true, ⟨st.fs, st.history ++ [restoreEntry lastOp], st.backupStore⟩) := by
    unfold undoLastOperation
    rw [hcu, hlast]
    simp only [if_pos rfl]
    rw [hsucc]
    simp only [if_pos rfl]
    rw [htype]
    dsimp only
    rw [hdest]
    dsimp only
    rw [hget]
    simp
  rw [hred]
  exact ⟨rfl, rfl, rfl⟩

/-- Witness for claim C10 at a concrete one-entry history whose MOVE
destination is absent from the (empty) filesystem. -/
theorem undo_move_missing_destination_witness :
    c10State.history.getLast? = some c10MoveOp ∧
    c10MoveOp.type = OpType.move ∧
    c10MoveOp.success = true ∧
    c10MoveOp.destination = some c10Dst ∧
    fsExists c10State.fs c10Dst = false ∧
    (undoLastOperation c10State).1 = true ∧
    (undoLastOperation c10State).2.fs = c10State.fs ∧
    (undoLastOperation c10State).2.history =
      c10State.history ++ [restoreEntry c10MoveOp] :=
  ⟨rfl, rfl, rfl, rfl, rfl,
    (undo_move_missing_destination c10State c10MoveOp c10Dst rfl rfl rfl rfl rfl).1,
    (undo_move_missing_destination c10State c10MoveOp c10Dst rfl rfl rfl rfl rfl).2.1,
    (undo_move_missing_destination c10State c10MoveOp c10Dst rfl rfl rfl rfl rfl).2.2⟩

/-! ### Claim C4: parse_scene failure behavior -/

/-- Claim C4: `parse_scene` always returns a `SceneAssets` result (the model
function is total — the source's never-throws contract), and whenever the
file is missing, its suffix is not `.max`, or it is not a recognized OLE
container, an error string is appended and the textures, proxies and
other-assets sets are all empty. -/
theorem parseScene_failure_empty (resolveFn : String → String)
    (inp : MaxFileInput)
    (h : inp.pathExists = false ∨ strLower inp.suffix ≠ ".max" ∨
      inp.isOleFile = false) :
    (parseScene resolveFn inp).errors ≠ [] ∧
    (parseScene resolveFn inp).textures = [] ∧
    (parseScene resolveFn inp).proxies = [] ∧
    (parseScene resolveFn inp).otherAssets = [] := by
  by_cases h1 : inp.pathExists = false
  · have hres : parseScene resolveFn inp = ⟨[], [], [], ["Файл не найден"]⟩ := by
      unfold parseScene
      rw [if_pos h1]
    rw [hres]
    exact ⟨by simp, rfl, rfl, rfl⟩
  · by_cases h2 : strLower inp.suffix ≠ ".max"
    · have hres : parseScene resolveFn inp =
          ⟨[], [], [], ["Неверный формат файла"]⟩ := by
        unfold parseScene
        rw [if_neg h1, if_pos h2]
      rw [hres]
      exact ⟨by simp, rfl, rfl, rfl⟩
    · have h3 : inp.isOleFile = false := by tauto
      have hres : parseScene resolveFn inp =
          ⟨[], [], [], ["Файл не является OLE"]⟩ := by
        unfold parseScene
        rw [if_neg h1, if_neg h2, if_pos h3]
      rw [hres]
      exact ⟨by simp, rfl, rfl, rfl⟩

/-- Witness for claim C4 at a concrete missing-file input. -/
theorem parseScene_failure_empty_witness :
    c4Missing.pathExists = false ∧
    (parseScene id c4Missing).errors ≠ [] ∧
    (parseScene id c4Missing).textures = [] ∧
    (parseScene id c4Missing).proxies = [] ∧
    (parseScene id c4Missing).otherAssets = [] :=
  ⟨rfl,
    (parseScene_failure_empty id c4Missing (Or.inl rfl)).1,
    (parseScene_failure_empty id c4Missing (Or.inl rfl)).2.1,
    (parseScene_failure_empty id c4Missing (Or.inl rfl)).2.2.1,
    (parseScene_failure_empty id c4Missing (Or.inl rfl)).2.2.2⟩

/-! ### Claim C5: linked/unused reconciliation -/

/-- Claim C5: after `_compare_assets` a scanned file is linked (and flagged
`is_used = true`) iff its lowercased filename appears among the lowercased
basenames of the scene references, otherwise unused; the linked and unused
sets are disjoint and together cover every scanned file; and matching is
case-insensitive — a reference to `Wood.JPG` matches a file named
`wood.jpg`. -/
theorem compare_linked_unused_spec (files : List P) (used : List String) (f : P) :
    (f ∈ compareLinked files used ↔
      f ∈ files ∧ lowerName f ∈ sceneNameKeys used) ∧
    (f ∈ compareLinked files used ↔ f ∈ files ∧ markUsed used f = true) ∧
    (f ∈ compareUnused files used ↔
      f ∈ files ∧ lowerName f ∉ sceneNameKeys used) ∧
    ¬(f ∈ compareLinked files used ∧ f ∈ compareUnused files used) ∧
    (f ∈ files → f ∈ compareLinked files used ∨ f ∈ compareUnused files used) ∧
    c5File ∈ compareLinked [c5File] ["D:\\old\\Wood.JPG"] := by
  refine ⟨?_, ?_, ?_, ?_, ?_, ?_⟩
  · simp [compareLinked, List.mem_filter]
  · simp [compareLinked, markUsed, List.mem_filter]
  · simp [compareUnused, List.mem_filter]
  · rintro ⟨h1, h2⟩
    simp only [compareLinked, compareUnused, List.mem_filter,
      decide_eq_true_eq] at h1 h2
    exact h2.2 h1.2
  · intro hf
    by_cases h : lowerName f ∈ sceneNameKeys used
    · exact Or.inl (by simp [compareLinked, List.mem_filter, hf, h])
    · exact Or.inr (by simp [compareUnused, List.mem_filter, hf, h])
  · decide

/-- Witness for claim C5: the case-insensitive match of `wood.jpg` against a
reference to `Wood.JPG`, extracted from the theorem at concrete input. -/
theorem compare_linked_unused_spec_witness :
    c5File ∈ compareLinked [c5File] ["D:\\old\\Wood.JPG"] :=
  (compare_linked_unused_spec [c5File] ["D:\\old\\Wood.JPG"] c5File).2.2.2.2.2

/-! ### Claim C6: missing-file detection -/

/-- Claim C6: after `_compare_assets` a reference path is in `missing_files`
iff its lowercased basename differs from the lowercased name of every file
found in the project walk and the literal reference path does not exist on
disk; references matching a scanned file by name, or whose literal path
exists, are never reported missing. -/
theorem compare_missing_spec (files : List P) (used : List String)
    (diskExists : String → Bool) (a : String) :
    a ∈ compareMissing files used diskExists ↔
      a ∈ used ∧ (∀ f ∈ files, lowerName f ≠ strLower (baseName a)) ∧
      diskExists a = false := by
  simp only [compareMissing, List.mem_filter, Bool.and_eq_true,
    decide_eq_true_eq, Bool.not_eq_true', List.mem_map]
  constructor
  · rintro ⟨ha, hnm, hde⟩
    refine ⟨ha, ?_, hde⟩
    intro f hf heq
    exact hnm ⟨f, hf, heq⟩
  · rintro ⟨ha, hnm, hde⟩
    refine ⟨ha, ?_, hde⟩
    rintro ⟨f, hf, hfeq⟩
    exact hnm f hf hfeq

/-- Witness for claim C6: a reference whose basename matches no scanned file
and whose literal path is absent lands in `missing_files`. -/
theorem compare_missing_spec_witness :
    "X:\\t\\brick.png" ∈ compareMissing [c5File] ["X:\\t\\brick.png"]
      (fun _ => false) :=
  (compare_missing_spec [c5File] ["X:\\t\\brick.png"] (fun _ => false)
    "X:\\t\\brick.png").mpr ⟨by decide, by decide, rfl⟩

/-! ### Claim C7: _clean_paths does not de-duplicate case-insensitively -/

/-- Claim C7 (code-bug demonstration): `_clean_paths` replaces forward
slashes by backslashes, but performs no case-insensitive de-duplication —
the `clean_set` comment announces removing duplicates that differ in case,
yet the code only `set.add`s the normalized strings.  On the texture set
{"C:/a/WOOD.JPG", "C:/a/wood.jpg"} both paths survive cleaning: they are
distinct, equal under lowercasing, and free of forward slashes. -/
theorem cleanPaths_keeps_case_duplicates :
    (cleanPathsAssets ⟨c7Textures, [], [], []⟩).textures =
      ["C:\\a\\WOOD.JPG", "C:\\a\\wood.jpg"] ∧
    "C:\\a\\WOOD.JPG" ≠ "C:\\a\\wood.jpg" ∧
    strLower "C:\\a\\WOOD.JPG" = strLower "C:\\a\\wood.jpg" ∧
    ((cleanPathsAssets ⟨c7Textures, [], [], []⟩).textures.all
      (fun s => !s.data.contains '/')) = true := by decide

end AssetMgr
